import Mathlib

/-!
Verification of the agentwrap Dynamic Tool-Call Bridge
(`src/typescript/src/server/dynamicMcpServer.ts`,
`src/typescript/src/server/dynamicMcpBridge.ts`,
`src/typescript/src/servers/openaiCompatible.ts`).

The TypeScript sources are embedded shallowly: mutable class state becomes
explicit state passing, `setTimeout` becomes a recorded deadline on an
abstract millisecond clock, and the `EventEmitter` becomes a list of emitted
events returned alongside the new state.
-/

set_option maxRecDepth 4096

/-- A JSON value, as produced by `JSON.parse` on a request body.
String escaping inside `serialize` is elided; serialization is still the
deterministic function used as the deduplication key. -/
inductive Json where
  | null : Json
  | bool (b : Bool) : Json
  | num (n : Int) : Json
  | str (s : String) : Json
  | arr (elems : List Json) : Json
  | obj (fields : List (String × Json)) : Json
deriving Repr

mutual

/-- Decidable equality for JSON values (the derive handler does not support
nested inductives). -/
def Json.decEq : (a b : Json) → Decidable (a = b)
  | .null, .null => .isTrue rfl
  | .bool a, .bool b =>
      if h : a = b then .isTrue (by rw [h]) else .isFalse (by simp [h])
  | .num a, .num b =>
      if h : a = b then .isTrue (by rw [h]) else .isFalse (by simp [h])
  | .str a, .str b =>
      if h : a = b then .isTrue (by rw [h]) else .isFalse (by simp [h])
  | .arr a, .arr b =>
      match Json.decEqList a b with
      | .isTrue h => .isTrue (by rw [h])
      | .isFalse h => .isFalse (by simp [h])
  | .obj a, .obj b =>
      match Json.decEqFields a b with
      | .isTrue h => .isTrue (by rw [h])
      | .isFalse h => .isFalse (by simp [h])
  | .null, .bool _ => .isFalse nofun
  | .null, .num _ => .isFalse nofun
  | .null, .str _ => .isFalse nofun
  | .null, .arr _ => .isFalse nofun
  | .null, .obj _ => .isFalse nofun
  | .bool _, .null => .isFalse nofun
  | .bool _, .num _ => .isFalse nofun
  | .bool _, .str _ => .isFalse nofun
  | .bool _, .arr _ => .isFalse nofun
  | .bool _, .obj _ => .isFalse nofun
  | .num _, .null => .isFalse nofun
  | .num _, .bool _ => .isFalse nofun
  | .num _, .str _ => .isFalse nofun
  | .num _, .arr _ => .isFalse nofun
  | .num _, .obj _ => .isFalse nofun
  | .str _, .null => .isFalse nofun
  | .str _, .bool _ => .isFalse nofun
  | .str _, .num _ => .isFalse nofun
  | .str _, .arr _ => .isFalse nofun
  | .str _, .obj _ => .isFalse nofun
  | .arr _, .null => .isFalse nofun
  | .arr _, .bool _ => .isFalse nofun
  | .arr _, .num _ => .isFalse nofun
  | .arr _, .str _ => .isFalse nofun
  | .arr _, .obj _ => .isFalse nofun
  | .obj _, .null => .isFalse nofun
  | .obj _, .bool _ => .isFalse nofun
  | .obj _, .num _ => .isFalse nofun
  | .obj _, .str _ => .isFalse nofun
  | .obj _, .arr _ => .isFalse nofun

/-- Decidable equality for JSON arrays. -/
def Json.decEqList : (a b : List Json) → Decidable (a = b)
  | [], [] => .isTrue rfl
  | [], _ :: _ => .isFalse nofun
  | _ :: _, [] => .isFalse nofun
  | x :: xs, y :: ys =>
      match Json.decEq x y, Json.decEqList xs ys with
      | .isTrue h1, .isTrue h2 => .isTrue (by rw [h1, h2])
      | .isFalse h1, _ => .isFalse (by intro h; injection h; contradiction)
      | _, .isFalse h2 => .isFalse (by intro h; injection h; contradiction)

/-- Decidable equality for JSON object field lists. -/
def Json.decEqFields : (a b : List (String × Json)) → Decidable (a = b)
  | [], [] => .isTrue rfl
  | [], _ :: _ => .isFalse nofun
  | _ :: _, [] => .isFalse nofun
  | (kx, vx) :: xs, (ky, vy) :: ys =>
      if hk : kx = ky then
        match Json.decEq vx vy, Json.decEqFields xs ys with
        | .isTrue h1, .isTrue h2 => .isTrue (by rw [hk, h1, h2])
        | .isFalse h1, _ =>
            .isFalse (by intro h; injection h with h' _; injection h'; contradiction)
        | _, .isFalse h2 => .isFalse (by intro h; injection h; contradiction)
      else
        .isFalse (by intro h; injection h with h' _; injection h'; contradiction)

end

instance : DecidableEq Json := Json.decEq

mutual

/-- `JSON.stringify`, as applied to compute `argsString` in `handleToolsCall`. -/
def Json.serialize : Json → String
  | .null => "null"
  | .bool true => "true"
  | .bool false => "false"
  | .num n => toString n
  | .str s => "\"" ++ s ++ "\""
  | .arr elems => "[" ++ Json.serializeList elems ++ "]"
  | .obj fields => "\x7b" ++ Json.serializeFields fields ++ "\x7d"

/-- Comma-separated serialization of a JSON array body. -/
def Json.serializeList : List Json → String
  | [] => ""
  | [j] => Json.serialize j
  | j :: rest => Json.serialize j ++ "," ++ Json.serializeList rest

/-- Comma-separated serialization of a JSON object body. -/
def Json.serializeFields : List (String × Json) → String
  | [] => ""
  | [(k, v)] => "\"" ++ k ++ "\":" ++ Json.serialize v
  | (k, v) :: rest => "\"" ++ k ++ "\":" ++ Json.serialize v ++ "," ++ Json.serializeFields rest

end

/-- `ChatCompletionFunctionParameters` from `server/types.ts`:
`{type:'object', properties, required?}`. -/
structure ChatCompletionFunctionParameters where
  properties : List (String × Json)
  required : Option (List String)
deriving Repr, DecidableEq

/-- `ChatCompletionFunction` from `server/types.ts`. -/
structure ChatCompletionFunction where
  name : String
  description : Option String
  parameters : ChatCompletionFunctionParameters
deriving Repr, DecidableEq

/-- `ToolCallRecord` from `dynamicMcpServer.ts`; the nested
`function: {name, arguments}` object is flattened into two fields. -/
structure ToolCallRecord where
  id : String
  name : String
  arguments : String
deriving Repr, DecidableEq

/-- An MCP tool descriptor (`MCPTool` in `dynamicMcpServer.ts`). -/
structure MCPTool where
  name : String
  description : Option String
  inputSchemaProperties : List (String × Json)
  inputSchemaRequired : Option (List String)
deriving Repr, DecidableEq

/-- A JSON-RPC request id (`string | number`). -/
inductive RpcId where
  | str (s : String) : RpcId
  | num (n : Int) : RpcId
deriving Repr, DecidableEq

/-- `tools/call` params (`ToolsCallParams`). -/
structure ToolsCallParams where
  name : String
  arguments : Json
deriving Repr, DecidableEq

/-- An MCP JSON-RPC request envelope (`MCPRequest`). -/
structure MCPRequest where
  id : Option RpcId
  method : String
  params : Option ToolsCallParams
deriving Repr, DecidableEq

/-- JSON-RPC result payloads produced by the bridge and the tool server. -/
inductive MCPResult where
  | initializeResult (protocolVersion serverName serverVersion : String) : MCPResult
  | toolsList (tools : List MCPTool) : MCPResult
  | toolCallContent (text : String) : MCPResult
deriving Repr, DecidableEq

/-- A JSON-RPC error object. -/
structure MCPError where
  code : Int
  message : String
deriving Repr, DecidableEq

/-- An MCP JSON-RPC response envelope (`MCPResponse`). -/
structure MCPResponse where
  id : Option RpcId
  result : Option MCPResult
  error : Option MCPError
deriving Repr, DecidableEq

/-- A JSON-RPC error response envelope. -/
def errorResponse (id : Option RpcId) (code : Int) (message : String) : MCPResponse :=
  { id := id, result := none, error := some { code := code, message := message } }

/-- Mutable state of one `DynamicMcpServer` instance.  `killTimeout` holds the
absolute deadline (ms) of the pending `setTimeout`, or `none` when no timer is
pending. -/
structure ServerState where
  functions : List ChatCompletionFunction
  toolCalls : List ToolCallRecord
  killTimeout : Option Nat
  nextToolCallId : Nat
deriving Repr, DecidableEq

/-- Events emitted through the server's `EventEmitter`. -/
inductive ServerEvent where
  | toolCall (record : ToolCallRecord) : ServerEvent
  | terminate (toolCalls : List ToolCallRecord) : ServerEvent
deriving Repr, DecidableEq

namespace DynamicMcpServer

/-- The `DynamicMcpServer` constructor. -/
def new (functions : List ChatCompletionFunction) : ServerState :=
  { functions := functions, toolCalls := [], killTimeout := none, nextToolCallId := 0 }

/-- `getTools`: map each function to an MCP tool descriptor. `fn.description ||
default` is JS truthiness, so an empty string also falls back to the default. -/
def getTools (functions : List ChatCompletionFunction) : List MCPTool :=
  functions.map fun fn =>
    { name := fn.name
      description := some (match fn.description with
        | some d => if d = "" then "User-defined function: " ++ fn.name else d
        | none => "User-defined function: " ++ fn.name)
      inputSchemaProperties := fn.parameters.properties
      inputSchemaRequired := fn.parameters.required }

/-- `scheduleTermination`: clear any pending timeout and arm a fresh one
`delayMs` from now (default 2000 ms). -/
def scheduleTermination (s : ServerState) (now : Nat) (delayMs : Nat := 2000) : ServerState :=
  { s with killTimeout := some (now + delayMs) }

/-- `cancelTermination`: clear the pending timeout. -/
def cancelTermination (s : ServerState) : ServerState :=
  { s with killTimeout := none }

/-- The placeholder acknowledgement returned by `handleToolsCall`. -/
def toolCallAck (id : Option RpcId) (name : String) : MCPResponse :=
  { id := id
    result := some (.toolCallContent
      ("[AgentWrap] Function " ++ name ++
        " will be executed by user process. Waiting for response..."))
    error := none }

/-- `handleToolsCall` (dynamicMcpServer.ts lines 203-252): deduplicate on the
`(name, JSON.stringify(arguments))` key; a new call is recorded, emits
`toolCall`, and (re)schedules termination; a duplicate changes nothing.
`now` is the millisecond clock (`Date.now()`). -/
def handleToolsCall (s : ServerState) (id : Option RpcId) (name : String) (args : Json)
    (now : Nat) : ServerState × List ServerEvent × MCPResponse :=
  let argsString := args.serialize
  let isDuplicate := s.toolCalls.any fun tc => tc.name == name && tc.arguments == argsString
  if isDuplicate then
    (s, [], toolCallAck id name)
  else
    let toolCallId := "call_" ++ toString now ++ "_" ++ toString s.nextToolCallId
    let record : ToolCallRecord := { id := toolCallId, name := name, arguments := argsString }
    let s' := { s with
      toolCalls := s.toolCalls ++ [record]
      nextToolCallId := s.nextToolCallId + 1 }
    (scheduleTermination s' now, [.toolCall record], toolCallAck id name)

/-- `handleInitialize`. -/
def handleInitialize (id : Option RpcId) : MCPResponse :=
  { id := id
    result := some (.initializeResult "2025-06-18" "agentwrap-dynamic-mcp" "1.0.0")
    error := none }

/-- `handleToolsList`. -/
def handleToolsList (s : ServerState) (id : Option RpcId) : MCPResponse :=
  { id := id, result := some (.toolsList (getTools s.functions)), error := none }

/-- `handleRequest` method dispatch (dynamicMcpServer.ts lines 119-163).
Returns `none` in the response slot for notifications.  A `tools/call` without
params throws on destructuring and is answered with `-32603` by the catch. -/
def handleRequest (s : ServerState) (req : MCPRequest) (now : Nat) :
    ServerState × List ServerEvent × Option MCPResponse :=
  if req.method = "initialize" then
    (s, [], some (handleInitialize req.id))
  else if req.method = "notifications/initialized" then
    (s, [], none)
  else if req.method = "tools/list" then
    (s, [], some (handleToolsList s req.id))
  else if req.method = "tools/call" then
    match req.params with
    | some p =>
        let (s', events, resp) := handleToolsCall s req.id p.name p.arguments now
        (s', events, some resp)
    | none =>
        (s, [], some (errorResponse req.id (-32603) "Internal error"))
  else
    (s, [], some (errorResponse req.id (-32601) ("Method not found: " ++ req.method)))

/-- The `setTimeout` callback firing: valid only when a timer is armed and its
deadline has been reached; it emits `terminate` with the accumulated records.
A fired timer cannot fire again, modelled by clearing `killTimeout`. -/
def timerFire (s : ServerState) (now : Nat) : ServerState × List ServerEvent :=
  match s.killTimeout with
  | some deadline =>
      if deadline ≤ now then ({ s with killTimeout := none }, [.terminate s.toolCalls])
      else (s, [])
  | none => (s, [])

end DynamicMcpServer

/-- `RequestContext` from `dynamicMcpBridge.ts`.  `functionNameMap` maps a
prefixed name back to its original name, in insertion order. -/
structure RequestContext where
  requestId : String
  mcpServer : ServerState
  originalFunctions : List ChatCompletionFunction
  functionNameMap : List (String × String)
deriving Repr, DecidableEq

/-- The bridge's `requests` table (`Map<string, RequestContext>`), kept in
insertion order as the `Map` iterates. -/
abbrev Registry := List RequestContext

/-- The HTTP body the bridge writes: either a JSON-RPC envelope inside an SSE
`data:` frame, or raw non-JSON-RPC text. -/
inductive HttpBody where
  | rpc (response : MCPResponse) : HttpBody
  | raw (text : String) : HttpBody
deriving Repr, DecidableEq

/-- An HTTP response as written by the bridge's shared listener. -/
structure HttpResponse where
  status : Nat
  body : Option HttpBody
deriving Repr, DecidableEq

/-- The prefixed-name format `{requestId}_{originalName}`. -/
def prefixedName (requestId name : String) : String := requestId ++ "_" ++ name

namespace DynamicMcpBridge

/-- `registerRequest` (dynamicMcpBridge.ts lines 167-201): prefix every
function name with `{requestId}_`, build the name map, construct the tool
server over the prefixed specs.  `requestId` is the `randomBytes(6).toString`
hex token, supplied here as an explicit input. -/
def registerRequest (requestId : String) (functions : List ChatCompletionFunction) :
    RequestContext :=
  let functionNameMap := functions.map fun fn => (prefixedName requestId fn.name, fn.name)
  let prefixedFunctions := functions.map fun fn => { fn with name := prefixedName requestId fn.name }
  { requestId := requestId
    mcpServer := DynamicMcpServer.new prefixedFunctions
    originalFunctions := functions
    functionNameMap := functionNameMap }

/-- `unregisterRequest` (dynamicMcpBridge.ts lines 206-213): if the id is
registered, cancel the pending termination timer on its server and remove the
entry.  The cancelled context is returned alongside so the timer state stays
observable. -/
def unregisterRequest (reg : Registry) (requestId : String) :
    Registry × Option RequestContext :=
  match reg.find? (fun c => c.requestId == requestId) with
  | some ctx =>
      (reg.filter (fun c => !(c.requestId == requestId)),
        some { ctx with mcpServer := DynamicMcpServer.cancelTermination ctx.mcpServer })
  | none => (reg, none)

/-- `getContextByFunctionName`: scan contexts in table order for the first one
whose name map contains the (prefixed) function name. -/
def getContextByFunctionName (reg : Registry) (functionName : String) :
    Option RequestContext :=
  reg.find? fun ctx => (ctx.functionNameMap.lookup functionName).isSome

/-- `removeFunctionPrefix`: translate a prefixed name back to the original via
the first context that maps it; unknown names are returned unchanged. -/
def removeFunctionPrefix (reg : Registry) (prefixedName : String) : String :=
  match reg.findSome? (fun ctx => ctx.functionNameMap.lookup prefixedName) with
  | some originalName => originalName
  | none => prefixedName

/-- `handleInitialize` on the bridge: server identity is bridge-wide. -/
def handleInitialize (req : MCPRequest) : HttpResponse :=
  { status := 200
    body := some (.rpc
      { id := req.id
        result := some (.initializeResult "2025-06-18" "userDefinedFunctions" "1.0.0")
        error := none }) }

/-- The aggregation loop's extraction of `response.result.tools` (with the
`Array.isArray`-style shape checks): anything that is not a `tools` result
contributes nothing. -/
def toolsOfResponse : Option MCPResponse → List MCPTool
  | some resp =>
      match resp.result with
      | some (.toolsList tools) => tools
      | _ => []
  | none => []

/-- `handleToolsList` on the bridge (lines 304-332): aggregate the
`tools/list` result of every registered context's tool server. -/
def handleToolsList (reg : Registry) (req : MCPRequest) (now : Nat) : HttpResponse :=
  let allTools := reg.flatMap fun ctx =>
    toolsOfResponse (DynamicMcpServer.handleRequest ctx.mcpServer req now).2.2
  { status := 200
    body := some (.rpc { id := req.id, result := some (.toolsList allTools), error := none }) }

/-- `handleToolsCall` on the bridge (lines 337-383): route to the first
context whose name map has the function name; a missing or empty (falsy) name
is answered 400; an unowned name is answered `-32601`.  Returns the updated
registry and any events the owning server emitted. -/
def handleToolsCall (reg : Registry) (req : MCPRequest) (now : Nat) :
    Registry × List ServerEvent × HttpResponse :=
  let functionName := match req.params with
    | some p => p.name
    | none => ""
  if functionName = "" then
    (reg, [], { status := 400, body := some (.raw "Missing function name") })
  else
    match getContextByFunctionName reg functionName with
    | some ctx =>
        let (s', events, resp) := DynamicMcpServer.handleRequest ctx.mcpServer req now
        let reg' := reg.map fun c =>
          if c.requestId == ctx.requestId then { c with mcpServer := s' } else c
        (reg', events,
          { status := 200, body := resp.map .rpc })
    | none =>
        (reg, [],
          { status := 200,
            body := some (.rpc (errorResponse req.id (-32601)
              ("Tool not found: " ++ functionName))) })

/-- The shared listener's POST pipeline (`handleRequest`, dynamicMcpBridge.ts
lines 218-274).  `parsed` is the outcome of `JSON.parse` on the body: `none`
models a body that fails to parse, which lands in the catch block and answers
a bare HTTP 500 with no body. -/
def handlePost (reg : Registry) (parsed : Option MCPRequest) (now : Nat) :
    Registry × List ServerEvent × HttpResponse :=
  match parsed with
  | none => (reg, [], { status := 500, body := none })
  | some req =>
      if req.method.startsWith "notifications/" then
        (reg, [], { status := 202, body := none })
      else if req.method = "initialize" then
        (reg, [], handleInitialize req)
      else if req.method = "tools/list" then
        (reg, [], handleToolsList reg req now)
      else if req.method = "tools/call" then
        handleToolsCall reg req now
      else
        (reg, [],
          { status := 200,
            body := some (.rpc (errorResponse req.id (-32601)
              ("Method not found: " ++ req.method))) })

end DynamicMcpBridge

/-- The standalone Streamable-HTTP handler `createMcpSseHandler`
(dynamicMcpServer.ts lines 300-373) for a single tool server: notifications
get a bodiless 202; requests get the server's JSON-RPC response in an SSE
frame; a body that fails `JSON.parse` gets a `-32700` parse-error envelope in
the same SSE frame style. -/
def mcpSseHandlerPost (s : ServerState) (parsed : Option MCPRequest) (now : Nat) :
    ServerState × List ServerEvent × HttpResponse :=
  match parsed with
  | none =>
      (s, [],
        { status := 200
          body := some (.rpc (errorResponse none (-32700) "Parse error")) })
  | some req =>
      if req.method.startsWith "notifications/" then
        (s, [], { status := 202, body := none })
      else
        let (s', events, resp) := DynamicMcpServer.handleRequest s req now
        (s', events, { status := 200, body := resp.map .rpc })

/-- `Event` from `events.ts`, the agent's lifecycle event stream. -/
inductive AgentEvent where
  | threadStarted (threadId : String) : AgentEvent
  | turnStarted : AgentEvent
  | reasoning (content : String) : AgentEvent
  | commandExecution (command : String) (output : String) (exitCode : Option Int) : AgentEvent
  | skillInvoked (skillName : String) : AgentEvent
  | message (content : String) : AgentEvent
  | turnCompleted : AgentEvent
  | error (content : String) : AgentEvent
deriving Repr, DecidableEq

/-- `isMessageEvent` type guard. -/
def isMessageEvent : AgentEvent → Bool
  | .message _ => true
  | _ => false

/-- `ChatCompletionFunctionCall` (`{name, arguments}`). -/
structure ChatCompletionFunctionCall where
  name : String
  arguments : String
deriving Repr, DecidableEq

/-- `ChatCompletionToolCall` (`{id, type:'function', function}`). -/
structure ChatCompletionToolCall where
  id : String
  type : String
  function : ChatCompletionFunctionCall
deriving Repr, DecidableEq

/-- `ChatCompletionAssistantMessage` as built by the response constructors. -/
structure ChatCompletionAssistantMessage where
  role : String
  content : Option String
  tool_calls : Option (List ChatCompletionToolCall)
deriving Repr, DecidableEq

/-- `ChatCompletionChoice`. -/
structure ChatCompletionChoice where
  index : Nat
  message : ChatCompletionAssistantMessage
  finish_reason : String
deriving Repr, DecidableEq

/-- `ChatCompletionResponse`. -/
structure ChatCompletionResponse where
  id : String
  object : String
  created : Nat
  model : String
  choices : List ChatCompletionChoice
deriving Repr, DecidableEq

namespace OpenAICompatibleServer

/-- `OpenAIServerOptions` as supplied by the caller. -/
structure OpenAIServerOptions where
  mcpServerPort : Option Nat
  mcpServerHost : Option String
  terminationDelayMs : Option Nat
deriving Repr, DecidableEq

/-- `InternalHandlerOptions` after the constructor's defaulting
(openaiCompatible.ts lines 88-96). -/
structure InternalHandlerOptions where
  mcpServerPort : Nat
  mcpServerHost : String
  terminationDelayMs : Nat
deriving Repr, DecidableEq

/-- The `OpenAICompatibleServer` constructor's option resolution. -/
def resolveOptions (options : OpenAIServerOptions) : InternalHandlerOptions :=
  { mcpServerPort := options.mcpServerPort.getD 0
    mcpServerHost := options.mcpServerHost.getD "127.0.0.1"
    terminationDelayMs := options.terminationDelayMs.getD 2000 }

/-- `convertEventToContentChunk` (openaiCompatible.ts lines 391-402).
`event.output ? event.output + newline : empty` is JS truthiness, so an empty
output string adds nothing. -/
def convertEventToContentChunk : AgentEvent → Option String
  | .reasoning content => some ("[Reasoning] " ++ content ++ "\n")
  | .commandExecution command output _ =>
      some ("[Command] " ++ command ++ "\n" ++ (if output = "" then "" else output ++ "\n"))
  | .skillInvoked skillName => some ("[Skill] " ++ skillName ++ "\n")
  | .message content => some content
  | _ => none

/-- One SSE item written on the streaming wire by `handleRequest`. -/
inductive StreamItem where
  | roleChunk : StreamItem
  | contentChunk (content : String) : StreamItem
  | finishChunk (finishReason : String) : StreamItem
  | doneSentinel : StreamItem
  | errorChunk (message : String) : StreamItem
deriving Repr, DecidableEq

/-- The event-processing loop body shared by both modes: for each event whose
chunk is truthy, collect it into the non-streaming buffer only when it is a
`message` event, and emit it as a content-delta chunk in streaming mode. -/
def processAgentEvents : List AgentEvent → List String × List StreamItem
  | [] => ([], [])
  | e :: rest =>
      let r := processAgentEvents rest
      match convertEventToContentChunk e with
      | some c =>
          if c = "" then r
          else if isMessageEvent e then (c :: r.1, .contentChunk c :: r.2)
          else (r.1, .contentChunk c :: r.2)
      | none => r

/-- The outcome of the termination race for one request.  The event list in
each constructor is the stream observed before the cutoff. -/
inductive RequestOutcome where
  | completedNormally : RequestOutcome
  | terminatedByToolCall : RequestOutcome
  | failed (errorMessage : String) : RequestOutcome
deriving Repr, DecidableEq

/-- The full SSE item sequence a streaming request writes (openaiCompatible.ts
lines 197-212 opening, 311-323 tool-call close, 336-348 normal close, 356-368
error close): one role chunk up front, the processed events' content chunks,
then the branch-dependent closing writes. -/
def streamedResponse (events : List AgentEvent) (outcome : RequestOutcome) :
    List StreamItem :=
  let body := (processAgentEvents events).2
  match outcome with
  | .completedNormally => .roleChunk :: body ++ [.finishChunk "stop", .doneSentinel]
  | .terminatedByToolCall => .roleChunk :: body ++ [.finishChunk "tool_calls", .doneSentinel]
  | .failed msg => .roleChunk :: body ++ [.errorChunk msg]

/-- `createToolCallResponse` (openaiCompatible.ts lines 438-474). -/
def createToolCallResponse (responseId : String) (created : Nat) (model : String)
    (toolCalls : List ToolCallRecord) : ChatCompletionResponse :=
  { id := responseId
    object := "chat.completion"
    created := created
    model := model
    choices := [
      { index := 0
        message :=
          { role := "assistant"
            content := none
            tool_calls := some (toolCalls.map fun tc =>
              { id := tc.id, type := "function",
                function := { name := tc.name, arguments := tc.arguments } }) }
        finish_reason := "tool_calls" }] }

/-- `createNormalResponse` (openaiCompatible.ts lines 479-504). -/
def createNormalResponse (responseId : String) (created : Nat) (model : String)
    (content : String) : ChatCompletionResponse :=
  { id := responseId
    object := "chat.completion"
    created := created
    model := model
    choices := [
      { index := 0
        message := { role := "assistant", content := some content, tool_calls := none }
        finish_reason := "stop" }] }

/-- The tool-call termination path (openaiCompatible.ts lines 295-329): strip
the per-request prefix from every recorded name via the bridge, then build the
`tool_calls` response. -/
def toolCallTerminationResponse (reg : Registry) (responseId : String) (created : Nat)
    (model : String) (toolCalls : List ToolCallRecord) : ChatCompletionResponse :=
  let originalToolCalls := toolCalls.map fun tc =>
    { tc with name := DynamicMcpBridge.removeFunctionPrefix reg tc.name }
  createToolCallResponse responseId created model originalToolCalls

/-- `collectedContent.join` with the empty separator: plain concatenation. -/
def concatStrings : List String → String
  | [] => ""
  | s :: rest => s ++ concatStrings rest

/-- The normal-completion path (openaiCompatible.ts lines 330-354): the final
content is the concatenation of the collected message chunks. -/
def normalCompletionResponse (events : List AgentEvent) (responseId : String)
    (created : Nat) (model : String) : ChatCompletionResponse :=
  createNormalResponse responseId created model
    (concatStrings (processAgentEvents events).1)

/-- Registry operations performed while handling one chat-completion request. -/
inductive RegistryOp where
  | register (requestId : String) : RegistryOp
  | unregister (requestId : String) : RegistryOp
deriving Repr, DecidableEq

/-- `Map.set` on the bridge's table: replace an entry with the same key in
place, append a new key at the end. -/
def registrySet (reg : Registry) (ctx : RequestContext) : Registry :=
  if reg.any (fun c => c.requestId == ctx.requestId) then
    reg.map fun c => if c.requestId == ctx.requestId then ctx else c
  else
    reg ++ [ctx]

/-- How one `handleRequest` invocation ends.  `registerRequest` runs at
openaiCompatible.ts line 163 but the `try` only begins at line 216; between
them sit `ensureServerStarted` (line 166, a promise that can reject) and the
prompt conversion (line 191, which throws a TypeError when the request has no
`messages` field).  An exception there escapes before the `try` is entered
(`preTryThrow`); otherwise the body runs to one of the three race outcomes
and the `finally` at line 379 runs (`body`). -/
inductive LifecycleOutcome where
  | preTryThrow : LifecycleOutcome
  | body (outcome : RequestOutcome) : LifecycleOutcome
deriving Repr, DecidableEq

/-- The registry lifecycle of `handleRequest` (openaiCompatible.ts lines
156-216 and 379-384): when the request carries at least one function
definition a context is registered up front, before the `try`.  If the
pre-try window throws, the exception propagates with no `finally` to run and
the context stays registered.  Once the `try` is entered, the body runs the
race to one of the three outcomes without touching the table and the
`finally` block unregisters the context unconditionally — on the throwing
path exactly as on the two normal ones.  Returns the final registry and the
operation log. -/
def handleRequestLifecycle (reg : Registry) (requestId : String)
    (functions : List ChatCompletionFunction) (outcome : LifecycleOutcome) :
    Registry × List RegistryOp :=
  if functions.length > 0 then
    let ctx := DynamicMcpBridge.registerRequest requestId functions
    let reg1 := registrySet reg ctx
    match outcome with
    | .preTryThrow => (reg1, [.register requestId])
    | .body bodyOutcome =>
        let regAfterBody := match bodyOutcome with
          | .completedNormally => reg1
          | .terminatedByToolCall => reg1
          | .failed _ => reg1
        ((DynamicMcpBridge.unregisterRequest regAfterBody requestId).1,
          [.register requestId, .unregister requestId])
  else
    (reg, [])

end OpenAICompatibleServer

/-- An external stimulus on one tool server: an incoming `tools/call`
delivered by the bridge, or the armed termination timer firing. -/
inductive ServerAction where
  | call (id : Option RpcId) (name : String) (args : Json) (now : Nat) : ServerAction
  | fire (now : Nat) : ServerAction
deriving Repr

/-- Whether a stimulus is a `tools/call`. -/
def ServerAction.isCall : ServerAction → Bool
  | .call _ _ _ _ => true
  | .fire _ => false

/-- Whether an emitted event is the termination signal. -/
def ServerEvent.isTerminate : ServerEvent → Bool
  | .terminate _ => true
  | .toolCall _ => false

/-- One step of the tool server under a stimulus. -/
def stepServer (s : ServerState) : ServerAction → ServerState × List ServerEvent
  | .call id name args now =>
      let h := DynamicMcpServer.handleToolsCall s id name args now
      (h.1, h.2.1)
  | .fire now => DynamicMcpServer.timerFire s now

/-- Run a whole stimulus trace, collecting emitted events in order. -/
def runTrace (s : ServerState) : List ServerAction → ServerState × List ServerEvent
  | [] => (s, [])
  | a :: rest =>
      let step := stepServer s a
      let next := runTrace step.1 rest
      (next.1, step.2 ++ next.2)

/-- The deduplication key of a record: `(name, argumentsJson)`. -/
def recordKey (tc : ToolCallRecord) : String × String := (tc.name, tc.arguments)

/-- The deduplication keys of the `tools/call` stimuli of a trace, in order. -/
def callKeys : List ServerAction → List (String × String)
  | [] => []
  | .call _ name args _ :: rest => (name, args.serialize) :: callKeys rest
  | .fire _ :: rest => callKeys rest

/-- First-occurrence accumulation of keys: the specified contents of the
record list after a sequence of calls. -/
def accumKeys (acc : List (String × String)) : List (String × String) →
    List (String × String)
  | [] => acc
  | k :: rest => accumKeys (if acc.contains k then acc else acc ++ [k]) rest

/-- Whether a stream item is the opening role chunk. -/
def OpenAICompatibleServer.StreamItem.isRole : OpenAICompatibleServer.StreamItem → Bool
  | .roleChunk => true
  | _ => false

/-- Whether a stream item is a content-delta chunk. -/
def OpenAICompatibleServer.StreamItem.isContent : OpenAICompatibleServer.StreamItem → Bool
  | .contentChunk _ => true
  | _ => false

/-- Whether a stream item belongs to a closing sequence: a finish chunk, the
end-of-stream sentinel, or an in-band error chunk. -/
def OpenAICompatibleServer.StreamItem.isClosing : OpenAICompatibleServer.StreamItem → Bool
  | .finishChunk _ => true
  | .doneSentinel => true
  | .errorChunk _ => true
  | _ => false

/-- Spec-side description of the non-streaming content: the contents of the
`message`-type events alone, in order. -/
def messageContents (events : List AgentEvent) : List String :=
  events.filterMap fun e => match e with
    | .message c => some c
    | _ => none

/-- The `getUserId` function definition from the spec's worked example. -/
def getUserIdFn : ChatCompletionFunction :=
  { name := "getUserId"
    description := none
    parameters := { properties := [("username", Json.str "string")], required := none } }

/-- A bridge table in which every entry was built by `registerRequest`, every
request id has the fixed 12-hex-character length of
`randomBytes(6).toString`, and ids are pairwise distinct (the `Map` key
discipline: `requests.set` keeps one entry per id). -/
structure WFRegistry (reg : Registry) : Prop where
  built : ∀ ctx ∈ reg, ∃ fns, ctx = DynamicMcpBridge.registerRequest ctx.requestId fns
  idLen : ∀ ctx ∈ reg, ctx.requestId.length = 12
  idsNodup : (reg.map fun c => c.requestId).Nodup

/-- The `search` function definition used by the concurrent-contexts example. -/
def searchFn : ChatCompletionFunction :=
  { name := "search"
    description := some "Search the index"
    parameters := { properties := [], required := none } }

/-- Two simultaneously-active contexts that both define `search`, under
distinct 12-hex-character request ids. -/
def sampleRegistry : Registry :=
  [DynamicMcpBridge.registerRequest "aaaaaaaaaaaa" [searchFn],
   DynamicMcpBridge.registerRequest "bbbbbbbbbbbb" [searchFn]]

/-- A concrete recorded call used by the concrete instances below. -/
def sampleRecord : ToolCallRecord := { id := "call_0_0", name := "f", arguments := "null" }

/-- A server state that has already recorded `sampleRecord` and has a pending
termination timer. -/
def sampleState : ServerState :=
  { functions := [], toolCalls := [sampleRecord], killTimeout := some 2000, nextToolCallId := 1 }

/-- C1: a `tools/call` whose `(name, serialized arguments)` key matches an
already-recorded call in the same context leaves the server state untouched
(no second `ToolCallRecord`, no change to the pending debounce deadline) and
emits nothing, while a non-duplicate call reschedules the deadline to
`now + 2000`. -/
theorem duplicate_toolsCall_is_noop (s : ServerState) (id : Option RpcId) (name : String)
    (args : Json) (now : Nat)
    (hdup : s.toolCalls.any
      (fun tc => tc.name == name && tc.arguments == args.serialize) = true) :
    (DynamicMcpServer.handleToolsCall s id name args now).1 = s ∧
    (DynamicMcpServer.handleToolsCall s id name args now).2.1 = [] ∧
    ∀ (s' : ServerState) (id' : Option RpcId) (name' : String) (args' : Json) (now' : Nat),
      s'.toolCalls.any
        (fun tc => tc.name == name' && tc.arguments == args'.serialize) = false →
      (DynamicMcpServer.handleToolsCall s' id' name' args' now').1.killTimeout =
        some (now' + 2000) := by
  refine ⟨?_, ?_, ?_⟩
  · simp [DynamicMcpServer.handleToolsCall, hdup]
  · simp [DynamicMcpServer.handleToolsCall, hdup]
  · intro s' id' name' args' now' hnew
    simp [DynamicMcpServer.handleToolsCall, hnew, DynamicMcpServer.scheduleTermination]

/-- Witness for C1: the call `("f", null)` is already recorded in
`sampleState`, and replaying it changes nothing. -/
theorem duplicate_toolsCall_is_noop_witness :
    sampleState.toolCalls.any
      (fun tc => tc.name == "f" && tc.arguments == Json.null.serialize) = true ∧
    (DynamicMcpServer.handleToolsCall sampleState none "f" .null 100).1 = sampleState :=
  ⟨rfl, (duplicate_toolsCall_is_noop sampleState none "f" .null 100 rfl).1⟩

/-- C10: the constructor stores `terminationDelayMs` (defaulted to 2000), but
for every configured value the deadline a non-duplicate call actually
schedules is `now + 2000`, the `scheduleTermination` default — the stored
option never reaches the tool server. -/
theorem terminationDelayMs_never_propagated (options : OpenAICompatibleServer.OpenAIServerOptions)
    (s : ServerState) (id : Option RpcId) (name : String) (args : Json) (now : Nat)
    (hnew : s.toolCalls.any
      (fun tc => tc.name == name && tc.arguments == args.serialize) = false) :
    (OpenAICompatibleServer.resolveOptions options).terminationDelayMs =
      options.terminationDelayMs.getD 2000 ∧
    (DynamicMcpServer.handleToolsCall s id name args now).1.killTimeout =
      some (now + 2000) := by
  refine ⟨rfl, ?_⟩
  simp [DynamicMcpServer.handleToolsCall, hnew, DynamicMcpServer.scheduleTermination]

/-- Witness for C10: with `terminationDelayMs` configured to 5000, a fresh
call still schedules termination 2000 ms out. -/
theorem terminationDelayMs_never_propagated_witness :
    (DynamicMcpServer.new []).toolCalls.any
      (fun tc => tc.name == "g" && tc.arguments == Json.null.serialize) = false ∧
    (DynamicMcpServer.handleToolsCall (DynamicMcpServer.new []) none "g" .null 100).1.killTimeout =
      some 2100 :=
  ⟨rfl,
    (terminationDelayMs_never_propagated
      { mcpServerPort := none, mcpServerHost := none, terminationDelayMs := some 5000 }
      (DynamicMcpServer.new []) none "g" .null 100 rfl).2⟩

theorem mem_keys_of_lookup_isSome {α : Type} (l : List (String × α)) (a : String)
    (h : (l.lookup a).isSome) : a ∈ l.map Prod.fst := by
  induction l with
  | nil => simp [List.lookup] at h
  | cons x xs ih =>
      simp only [List.lookup] at h
      by_cases hax : a = x.1
      · simp [hax]
      · simp only [List.map_cons, List.mem_cons]
        right
        rw [show (a == x.1) = false by simpa using hax] at h
        exact ih (by simpa using h)

theorem prefixedName_ne (r1 r2 a b : String) (hlen : r1.length = r2.length)
    (hne : r1 ≠ r2) : prefixedName r1 a ≠ prefixedName r2 b := by
  intro h
  apply hne
  have hd : ((r1 ++ "_") ++ a).data = ((r2 ++ "_") ++ b).data := congrArg String.data h
  rw [String.data_append, String.data_append, String.data_append, String.data_append] at hd
  have hlen1 : (r1.data ++ "_".data).length = (r2.data ++ "_".data).length := by
    simp only [List.length_append]
    have : r1.data.length = r2.data.length := hlen
    omega
  have h1 := List.append_inj hd hlen1
  have h2 := List.append_inj h1.1 (show r1.data.length = r2.data.length from hlen)
  exact String.ext h2.1

theorem registerRequest_nameMap_keys (rid : String) (fns : List ChatCompletionFunction) :
    (DynamicMcpBridge.registerRequest rid fns).functionNameMap.map Prod.fst =
      fns.map fun fn => prefixedName rid fn.name := by
  simp [DynamicMcpBridge.registerRequest, List.map_map, Function.comp]

theorem owner_key_shape (ctx : RequestContext) (fns : List ChatCompletionFunction)
    (hctx : ctx = DynamicMcpBridge.registerRequest ctx.requestId fns) (n : String)
    (h : (ctx.functionNameMap.lookup n).isSome) :
    ∃ fn ∈ fns, n = prefixedName ctx.requestId fn.name := by
  have hk := mem_keys_of_lookup_isSome ctx.functionNameMap n h
  rw [show ctx.functionNameMap = (DynamicMcpBridge.registerRequest ctx.requestId fns).functionNameMap
      from by rw [← hctx]] at hk
  rw [registerRequest_nameMap_keys] at hk
  obtain ⟨fn, hfn, he⟩ := List.mem_map.mp hk
  exact ⟨fn, hfn, he.symm⟩

theorem contexts_disjoint (reg : Registry) (hwf : WFRegistry reg)
    (ctx1 : RequestContext) (h1 : ctx1 ∈ reg) (ctx2 : RequestContext) (h2 : ctx2 ∈ reg)
    (hne : ctx1.requestId ≠ ctx2.requestId) (n : String)
    (hl1 : (ctx1.functionNameMap.lookup n).isSome)
    (hl2 : (ctx2.functionNameMap.lookup n).isSome) : False := by
  obtain ⟨fns1, hc1⟩ := hwf.built ctx1 h1
  obtain ⟨fns2, hc2⟩ := hwf.built ctx2 h2
  obtain ⟨fn1, _, he1⟩ := owner_key_shape ctx1 fns1 hc1 n hl1
  obtain ⟨fn2, _, he2⟩ := owner_key_shape ctx2 fns2 hc2 n hl2
  exact prefixedName_ne ctx1.requestId ctx2.requestId fn1.name fn2.name
    ((hwf.idLen ctx1 h1).trans (hwf.idLen ctx2 h2).symm) hne (he1 ▸ he2 ▸ rfl)

theorem WFRegistry.tail {c : RequestContext} {rest : Registry}
    (hwf : WFRegistry (c :: rest)) : WFRegistry rest :=
  ⟨fun ctx h => hwf.built ctx (List.mem_cons_of_mem c h),
   fun ctx h => hwf.idLen ctx (List.mem_cons_of_mem c h),
   (List.nodup_cons.mp (by simpa using hwf.idsNodup)).2⟩

theorem head_id_ne_of_wf {c : RequestContext} {rest : Registry}
    (hwf : WFRegistry (c :: rest)) {ctx : RequestContext} (hrest : ctx ∈ rest) :
    c.requestId ≠ ctx.requestId := by
  have hnodup := hwf.idsNodup
  simp only [List.map_cons, List.nodup_cons] at hnodup
  intro he
  exact hnodup.1 (he ▸ List.mem_map_of_mem (fun x => x.requestId) hrest)

theorem getContextByFunctionName_eq (reg : Registry) (hwf : WFRegistry reg)
    (ctx : RequestContext) (hmem : ctx ∈ reg) (n : String)
    (hl : (ctx.functionNameMap.lookup n).isSome) :
    DynamicMcpBridge.getContextByFunctionName reg n = some ctx := by
  induction reg with
  | nil => simp at hmem
  | cons c rest ih =>
      rcases List.mem_cons.mp hmem with hc | hrest
      · subst hc
        exact List.find?_cons_of_pos rest hl
      · by_cases hcn : (c.functionNameMap.lookup n).isSome
        · exact (contexts_disjoint (c :: rest) hwf c
            (List.mem_cons_self c rest) ctx hmem (head_id_ne_of_wf hwf hrest) n hcn hl).elim
        · rw [show DynamicMcpBridge.getContextByFunctionName (c :: rest) n =
              DynamicMcpBridge.getContextByFunctionName rest n from
            List.find?_cons_of_neg rest hcn]
          exact ih hwf.tail hrest

theorem removeFunctionPrefix_eq (reg : Registry) (hwf : WFRegistry reg)
    (ctx : RequestContext) (hmem : ctx ∈ reg) (n orig : String)
    (hl : ctx.functionNameMap.lookup n = some orig) :
    DynamicMcpBridge.removeFunctionPrefix reg n = orig := by
  induction reg with
  | nil => simp at hmem
  | cons c rest ih =>
      rcases List.mem_cons.mp hmem with hc | hrest
      · subst hc
        simp [DynamicMcpBridge.removeFunctionPrefix, List.findSome?_cons, hl]
      · by_cases hcn : (c.functionNameMap.lookup n).isSome
        · exact (contexts_disjoint (c :: rest) hwf c
            (List.mem_cons_self c rest) ctx hmem (head_id_ne_of_wf hwf hrest) n hcn
            (by simp [hl])).elim
        · have hnone : c.functionNameMap.lookup n = none := by
            cases h : c.functionNameMap.lookup n
            · rfl
            · exact absurd (by simp [h]) hcn
          have := ih hwf.tail hrest
          simpa [DynamicMcpBridge.removeFunctionPrefix, List.findSome?_cons, hnone] using this

theorem sampleRegistry_wf : WFRegistry sampleRegistry := by
  refine ⟨?_, ?_, ?_⟩
  · intro ctx h
    simp only [sampleRegistry, List.mem_cons, List.not_mem_nil, or_false] at h
    rcases h with h | h <;> subst h <;> exact ⟨[searchFn], rfl⟩
  · intro ctx h
    simp only [sampleRegistry, List.mem_cons, List.not_mem_nil, or_false] at h
    rcases h with h | h <;> subst h <;> decide
  · decide

/-- C2: in a well-formed registry (entries built by `registerRequest` under
pairwise-distinct 12-character request ids) the prefixed names owned by two
different contexts never collide — even when both contexts define a function
with the same original name — and consequently a `tools/call` for a prefixed
name is delegated to the unique context whose name map contains it. -/
theorem prefixed_names_globally_unique (reg : Registry) (hwf : WFRegistry reg) :
    (∀ ctx1 ∈ reg, ∀ ctx2 ∈ reg, ctx1.requestId ≠ ctx2.requestId →
      ∀ n : String, (ctx1.functionNameMap.lookup n).isSome →
        ¬ ((ctx2.functionNameMap.lookup n).isSome = true)) ∧
    (∀ ctx ∈ reg, ∀ n : String, (ctx.functionNameMap.lookup n).isSome →
      DynamicMcpBridge.getContextByFunctionName reg n = some ctx) :=
  ⟨fun ctx1 h1 ctx2 h2 hne n hl1 hl2 =>
      contexts_disjoint reg hwf ctx1 h1 ctx2 h2 hne n hl1 hl2,
    fun ctx hmem n hl => getContextByFunctionName_eq reg hwf ctx hmem n hl⟩

/-- Witness for C2: with contexts A and B both defining `search`, the call for
B's prefixed name resolves to B's context, never A's. -/
theorem prefixed_names_globally_unique_witness :
    WFRegistry sampleRegistry ∧
    DynamicMcpBridge.getContextByFunctionName sampleRegistry "bbbbbbbbbbbb_search" =
      some (DynamicMcpBridge.registerRequest "bbbbbbbbbbbb" [searchFn]) :=
  ⟨sampleRegistry_wf,
    (prefixed_names_globally_unique sampleRegistry sampleRegistry_wf).2
      (DynamicMcpBridge.registerRequest "bbbbbbbbbbbb" [searchFn])
      (by simp [sampleRegistry]) "bbbbbbbbbbbb_search" (by decide)⟩

/-- C4: on tool-call termination the response carries finish reason
`tool_calls` and an assistant message with null content whose `tool_calls`
hold the recorded calls, each prefixed name mapped back through the owning
context's name map with the arguments string unchanged; in particular
`abc123_getUserId` with `{"username":"alice"}` comes back as `getUserId` with
identical arguments. -/
theorem toolcall_response_unprefixed (reg : Registry) (hwf : WFRegistry reg)
    (responseId : String) (created : Nat) (model : String) (recs : List ToolCallRecord) :
    OpenAICompatibleServer.toolCallTerminationResponse reg responseId created model recs =
      { id := responseId
        object := "chat.completion"
        created := created
        model := model
        choices := [
          { index := 0
            message :=
              { role := "assistant"
                content := none
                tool_calls := some (recs.map fun tc =>
                  { id := tc.id
                    type := "function"
                    function :=
                      { name := DynamicMcpBridge.removeFunctionPrefix reg tc.name
                        arguments := tc.arguments } }) }
            finish_reason := "tool_calls" }] } ∧
    (∀ ctx ∈ reg, ∀ n orig : String, ctx.functionNameMap.lookup n = some orig →
      DynamicMcpBridge.removeFunctionPrefix reg n = orig) ∧
    (OpenAICompatibleServer.toolCallTerminationResponse
        [DynamicMcpBridge.registerRequest "abc123" [getUserIdFn]] "resp1" 0 "model1"
        [{ id := "call_1_0", name := "abc123_getUserId"
           arguments := "\x7b\"username\":\"alice\"\x7d" }]).choices.map
        (fun choice => (choice.finish_reason, choice.message.content, choice.message.tool_calls)) =
      [("tool_calls", none,
        some [{ id := "call_1_0", type := "function"
                function := { name := "getUserId"
                              arguments := "\x7b\"username\":\"alice\"\x7d" } }])] := by
  refine ⟨?_, fun ctx hmem n orig hl => removeFunctionPrefix_eq reg hwf ctx hmem n orig hl, ?_⟩
  · simp only [OpenAICompatibleServer.toolCallTerminationResponse,
      OpenAICompatibleServer.createToolCallResponse, List.map_map]
    rfl
  · decide

/-- Witness for C4: applied to the two-context registry. -/
theorem toolcall_response_unprefixed_witness :
    WFRegistry sampleRegistry ∧
    (OpenAICompatibleServer.toolCallTerminationResponse sampleRegistry "r" 0 "m"
        [{ id := "call_2_0", name := "bbbbbbbbbbbb_search", arguments := "\x7b\x7d" }]).choices =
      [{ index := 0
         message :=
           { role := "assistant"
             content := none
             tool_calls := some [{ id := "call_2_0", type := "function"
                                   function := { name := "search", arguments := "\x7b\x7d" } }] }
         finish_reason := "tool_calls" }] := by
  refine ⟨sampleRegistry_wf, ?_⟩
  have h := (toolcall_response_unprefixed sampleRegistry sampleRegistry_wf "r" 0 "m"
    [{ id := "call_2_0", name := "bbbbbbbbbbbb_search", arguments := "\x7b\x7d" }]).1
  rw [h]
  decide

/-- C5 counterexample: a POST whose body fails `JSON.parse` is answered by the
shared listener with a bare HTTP 500 and no body at all — not a `-32700`
JSON-RPC envelope. -/
theorem bridge_parse_failure_is_bare_500 :
    DynamicMcpBridge.handlePost [] none 0 = ([], [], { status := 500, body := none }) ∧
    ∀ resp : MCPResponse,
      (DynamicMcpBridge.handlePost [] none 0).2.2.body ≠ some (.rpc resp) := by
  refine ⟨rfl, ?_⟩
  intro resp
  simp [DynamicMcpBridge.handlePost]

/-- C5 amended: the shared bridge listener answers an unparseable POST body
with a bare empty HTTP 500, while the standalone per-server Streamable-HTTP
handler is the one that wraps parse failures as a `-32700` JSON-RPC error in
the normal SSE envelope style. -/
theorem parse_failure_responses (reg : Registry) (now : Nat) (s : ServerState) (now2 : Nat) :
    DynamicMcpBridge.handlePost reg none now = (reg, [], { status := 500, body := none }) ∧
    (mcpSseHandlerPost s none now2).2.2 =
      { status := 200
        body := some (.rpc (errorResponse none (-32700) "Parse error")) } :=
  ⟨rfl, rfl⟩

/-- C7: when the agent completes normally without any tool call, the response
has finish reason `stop` and its content is the concatenation of the
`message`-type events alone — bracketed renderings of reasoning, command and
skill events never accumulate into the final buffer; a single final message
`42` yields content `42`. -/
theorem normal_completion_concatenates_messages (events : List AgentEvent)
    (responseId : String) (created : Nat) (model : String) :
    OpenAICompatibleServer.normalCompletionResponse events responseId created model =
      { id := responseId
        object := "chat.completion"
        created := created
        model := model
        choices := [
          { index := 0
            message :=
              { role := "assistant"
                content := some (OpenAICompatibleServer.concatStrings (messageContents events))
                tool_calls := none }
            finish_reason := "stop" }] } ∧
    OpenAICompatibleServer.normalCompletionResponse
        [.reasoning "thinking", .message "42"] "resp2" 0 "model2" =
      { id := "resp2"
        object := "chat.completion"
        created := 0
        model := "model2"
        choices := [
          { index := 0
            message := { role := "assistant", content := some "42", tool_calls := none }
            finish_reason := "stop" }] } := by
  constructor
  · have key : OpenAICompatibleServer.concatStrings
        (OpenAICompatibleServer.processAgentEvents events).1 =
        OpenAICompatibleServer.concatStrings (messageContents events) := by
      induction events with
      | nil => rfl
      | cons e rest ih =>
          cases e with
          | message c =>
              by_cases hc : c = ""
              · subst hc
                simpa [OpenAICompatibleServer.processAgentEvents,
                  OpenAICompatibleServer.convertEventToContentChunk, isMessageEvent,
                  messageContents, OpenAICompatibleServer.concatStrings] using ih
              · simpa [OpenAICompatibleServer.processAgentEvents,
                  OpenAICompatibleServer.convertEventToContentChunk, isMessageEvent, hc,
                  messageContents, OpenAICompatibleServer.concatStrings] using
                    congrArg (fun t => c ++ t) ih
          | reasoning c =>
              simpa [OpenAICompatibleServer.processAgentEvents,
                OpenAICompatibleServer.convertEventToContentChunk, isMessageEvent,
                messageContents] using ih
          | commandExecution cmd out ec =>
              simpa [OpenAICompatibleServer.processAgentEvents,
                OpenAICompatibleServer.convertEventToContentChunk, isMessageEvent,
                messageContents] using ih
          | skillInvoked n =>
              simpa [OpenAICompatibleServer.processAgentEvents,
                OpenAICompatibleServer.convertEventToContentChunk, isMessageEvent,
                messageContents] using ih
          | threadStarted tid =>
              simpa [OpenAICompatibleServer.processAgentEvents,
                OpenAICompatibleServer.convertEventToContentChunk, isMessageEvent,
                messageContents] using ih
          | turnStarted =>
              simpa [OpenAICompatibleServer.processAgentEvents,
                OpenAICompatibleServer.convertEventToContentChunk, isMessageEvent,
                messageContents] using ih
          | turnCompleted =>
              simpa [OpenAICompatibleServer.processAgentEvents,
                OpenAICompatibleServer.convertEventToContentChunk, isMessageEvent,
                messageContents] using ih
          | error c =>
              simpa [OpenAICompatibleServer.processAgentEvents,
                OpenAICompatibleServer.convertEventToContentChunk, isMessageEvent,
                messageContents] using ih
    simp only [OpenAICompatibleServer.normalCompletionResponse,
      OpenAICompatibleServer.createNormalResponse, key]
  · decide

theorem registered_tools_list_response (id : Option RpcId) (now : Nat)
    (q : String × List ChatCompletionFunction) :
    (DynamicMcpServer.handleRequest (DynamicMcpBridge.registerRequest q.1 q.2).mcpServer
        { id := id, method := "tools/list", params := none } now).2.2 =
      some { id := id
             result := some (.toolsList (q.2.map fun fn =>
               { name := prefixedName q.1 fn.name
                 description := some (match fn.description with
                   | some d =>
                       if d = "" then "User-defined function: " ++ prefixedName q.1 fn.name
                       else d
                   | none => "User-defined function: " ++ prefixedName q.1 fn.name)
                 inputSchemaProperties := fn.parameters.properties
                 inputSchemaRequired := fn.parameters.required }))
             error := none } := by
  simp only [DynamicMcpServer.handleRequest]
  rw [if_neg (by decide), if_neg (by decide), if_pos (by decide)]
  simp only [DynamicMcpServer.handleToolsList, DynamicMcpServer.getTools,
    DynamicMcpBridge.registerRequest, DynamicMcpServer.new, List.map_map]
  rfl

/-- C8: while several contexts are registered, `tools/list` on the shared
listener returns the union (in table order) of every registered context's
tool descriptors: prefixed name, `inputSchema` taken from the function's
`parameters`, and a generated description when the caller supplied none (or
an empty, falsy one). -/
theorem tools_list_aggregates_all_contexts
    (pairs : List (String × List ChatCompletionFunction)) (id : Option RpcId) (now : Nat) :
    DynamicMcpBridge.handleToolsList
        (pairs.map fun p => DynamicMcpBridge.registerRequest p.1 p.2)
        { id := id, method := "tools/list", params := none } now =
      { status := 200
        body := some (.rpc
          { id := id
            result := some (.toolsList (pairs.flatMap fun p => p.2.map fun fn =>
              { name := prefixedName p.1 fn.name
                description := some (match fn.description with
                  | some d =>
                      if d = "" then "User-defined function: " ++ prefixedName p.1 fn.name
                      else d
                  | none => "User-defined function: " ++ prefixedName p.1 fn.name)
                inputSchemaProperties := fn.parameters.properties
                inputSchemaRequired := fn.parameters.required }))
            error := none }) } := by
  simp only [DynamicMcpBridge.handleToolsList]
  congr 5
  induction pairs with
  | nil => rfl
  | cons p rest ih =>
      injection ih with ih2
      simp only [List.map_cons, List.flatMap_cons, registered_tools_list_response, ih2]
      rfl

theorem processAgentEvents_content_only (events : List AgentEvent) :
    ∀ i ∈ (OpenAICompatibleServer.processAgentEvents events).2, i.isContent = true := by
  induction events with
  | nil =>
      intro i hi
      simp [OpenAICompatibleServer.processAgentEvents] at hi
  | cons e rest ih =>
      intro i hi
      simp only [OpenAICompatibleServer.processAgentEvents] at hi
      cases hconv : OpenAICompatibleServer.convertEventToContentChunk e with
      | none =>
          rw [hconv] at hi
          exact ih i hi
      | some c =>
          rw [hconv] at hi
          dsimp only [] at hi
          by_cases hc : c = ""
          · rw [if_pos hc] at hi
            exact ih i hi
          · rw [if_neg hc] at hi
            by_cases hm : isMessageEvent e = true
            · rw [if_pos hm] at hi
              rcases List.mem_cons.mp hi with h | h
              · subst h; rfl
              · exact ih i h
            · rw [if_neg hm] at hi
              rcases List.mem_cons.mp hi with h | h
              · subst h; rfl
              · exact ih i h

/-- C6: every streaming response opens with exactly one role chunk; a request
that completes (normally or by tool calls) closes with exactly one finish
chunk immediately followed by the end-of-stream sentinel; on error the
closing sequence is replaced by a single in-band error chunk — no finish
chunk and no sentinel. -/
theorem streaming_chunk_discipline (events : List AgentEvent)
    (outcome : OpenAICompatibleServer.RequestOutcome) :
    (OpenAICompatibleServer.streamedResponse events outcome).head? =
      some .roleChunk ∧
    (((OpenAICompatibleServer.streamedResponse events outcome).drop 1).all
      fun i => !i.isRole) = true ∧
    (match outcome with
     | .failed m =>
         ∃ pre, OpenAICompatibleServer.streamedResponse events outcome =
             pre ++ [.errorChunk m] ∧ (pre.all fun i => !i.isClosing) = true
     | _ =>
         ∃ r pre, (r = "stop" ∨ r = "tool_calls") ∧
           OpenAICompatibleServer.streamedResponse events outcome =
             pre ++ [.finishChunk r, .doneSentinel] ∧
           (pre.all fun i => !i.isClosing) = true) := by
  have hbody := processAgentEvents_content_only events
  have hallRole : (((OpenAICompatibleServer.processAgentEvents events).2).all
      fun i => !i.isRole) = true := by
    rw [List.all_eq_true]
    intro i hi
    have hc := hbody i hi
    cases i <;> simp_all [OpenAICompatibleServer.StreamItem.isContent,
      OpenAICompatibleServer.StreamItem.isRole]
  have hallClosing : (((OpenAICompatibleServer.processAgentEvents events).2).all
      fun i => !i.isClosing) = true := by
    rw [List.all_eq_true]
    intro i hi
    have hc := hbody i hi
    cases i <;> simp_all [OpenAICompatibleServer.StreamItem.isContent,
      OpenAICompatibleServer.StreamItem.isClosing]
  refine ⟨?_, ?_, ?_⟩
  · cases outcome <;> rfl
  · cases outcome with
    | completedNormally =>
        show ((((OpenAICompatibleServer.processAgentEvents events).2) ++
          [OpenAICompatibleServer.StreamItem.finishChunk "stop",
           OpenAICompatibleServer.StreamItem.doneSentinel]).all fun i => !i.isRole) = true
        rw [List.all_append, hallRole]
        rfl
    | terminatedByToolCall =>
        show ((((OpenAICompatibleServer.processAgentEvents events).2) ++
          [OpenAICompatibleServer.StreamItem.finishChunk "tool_calls",
           OpenAICompatibleServer.StreamItem.doneSentinel]).all fun i => !i.isRole) = true
        rw [List.all_append, hallRole]
        rfl
    | failed m =>
        show ((((OpenAICompatibleServer.processAgentEvents events).2) ++
          [OpenAICompatibleServer.StreamItem.errorChunk m]).all fun i => !i.isRole) = true
        rw [List.all_append, hallRole]
        rfl
  · cases outcome with
    | completedNormally =>
        refine ⟨"stop", .roleChunk :: (OpenAICompatibleServer.processAgentEvents events).2,
          Or.inl rfl, rfl, ?_⟩
        rw [List.all_cons, hallClosing]
        rfl
    | terminatedByToolCall =>
        refine ⟨"tool_calls", .roleChunk :: (OpenAICompatibleServer.processAgentEvents events).2,
          Or.inr rfl, rfl, ?_⟩
        rw [List.all_cons, hallClosing]
        rfl
    | failed m =>
        refine ⟨.roleChunk :: (OpenAICompatibleServer.processAgentEvents events).2,
          rfl, ?_⟩
        rw [List.all_cons, hallClosing]
        rfl

theorem find?_append_fresh (reg : Registry) (rid : String) (ctx : RequestContext)
    (hfresh : ∀ c ∈ reg, c.requestId ≠ rid) (hctx : ctx.requestId = rid) :
    (reg ++ [ctx]).find? (fun c => c.requestId == rid) = some ctx := by
  induction reg with
  | nil => simp [List.find?, hctx]
  | cons c rest ih =>
      have hc : (c.requestId == rid) = false := by
        simpa using hfresh c (List.mem_cons_self c rest)
      rw [List.cons_append, List.find?_cons_of_neg _ (by simp [hc])]
      exact ih fun x hx => hfresh x (List.mem_cons_of_mem c hx)

theorem filter_append_fresh (reg : Registry) (rid : String) (ctx : RequestContext)
    (hfresh : ∀ c ∈ reg, c.requestId ≠ rid) (hctx : ctx.requestId = rid) :
    (reg ++ [ctx]).filter (fun c => !(c.requestId == rid)) = reg := by
  induction reg with
  | nil => simp [List.filter, hctx]
  | cons c rest ih =>
      have hc : (c.requestId == rid) = false := by
        simpa using hfresh c (List.mem_cons_self c rest)
      rw [List.cons_append, List.filter_cons_of_pos (by simp [hc])]
      rw [ih fun x hx => hfresh x (List.mem_cons_of_mem c hx)]

/-- C9 (code bug): once the `try` is entered, the `finally` releases the
context exactly once on every body outcome — normal completion, tool-call
termination, and an exception thrown inside the `try` alike — and
unregistering cancels the pending termination timer; but registration happens
before the `try` begins, so an exception in the pre-try window
(`ensureServerStarted` rejecting at line 166, or the prompt conversion at
line 191 throwing on a request with no `messages` field) escapes with no
unregister logged and the context still sitting in the table. -/
theorem context_leaked_on_pre_try_throw (reg : Registry) (requestId : String)
    (functions : List ChatCompletionFunction)
    (hfns : functions.length > 0)
    (hfresh : ∀ ctx ∈ reg, ctx.requestId ≠ requestId) :
    (∀ outcome : OpenAICompatibleServer.RequestOutcome,
      ((OpenAICompatibleServer.handleRequestLifecycle reg requestId functions
          (.body outcome)).2.count (.unregister requestId) = 1) ∧
      ((OpenAICompatibleServer.handleRequestLifecycle reg requestId functions
          (.body outcome)).1 = reg)) ∧
    (∀ (r : Registry) (rid : String) (ctx : RequestContext),
      (DynamicMcpBridge.unregisterRequest r rid).2 = some ctx →
        ctx.mcpServer.killTimeout = none) ∧
    ((OpenAICompatibleServer.handleRequestLifecycle reg requestId functions
        .preTryThrow).2.count (.unregister requestId) = 0) ∧
    ((OpenAICompatibleServer.handleRequestLifecycle reg requestId functions
        .preTryThrow).1.find? (fun c => c.requestId == requestId) =
      some (DynamicMcpBridge.registerRequest requestId functions)) := by
  have hany : (reg.any fun c => c.requestId ==
      (DynamicMcpBridge.registerRequest requestId functions).requestId) = false := by
    rw [Bool.eq_false_iff]
    intro hcontra
    rw [List.any_eq_true] at hcontra
    obtain ⟨c, hmem, hbeq⟩ := hcontra
    exact hfresh c hmem (by simpa using hbeq)
  have hset : OpenAICompatibleServer.registrySet reg
      (DynamicMcpBridge.registerRequest requestId functions) =
      reg ++ [DynamicMcpBridge.registerRequest requestId functions] := by
    rw [OpenAICompatibleServer.registrySet, if_neg (by simp [hany])]
  refine ⟨?_, ?_, ?_, ?_⟩
  · intro outcome
    constructor
    · rw [OpenAICompatibleServer.handleRequestLifecycle, if_pos hfns]
      simp
    · rw [OpenAICompatibleServer.handleRequestLifecycle, if_pos hfns]
      cases outcome <;>
        · show (DynamicMcpBridge.unregisterRequest
              (OpenAICompatibleServer.registrySet reg
                (DynamicMcpBridge.registerRequest requestId functions)) requestId).1 = reg
          rw [hset, DynamicMcpBridge.unregisterRequest,
            find?_append_fresh reg requestId _ hfresh rfl]
          exact filter_append_fresh reg requestId _ hfresh rfl
  · intro r rid ctx h
    rw [DynamicMcpBridge.unregisterRequest] at h
    cases hf : r.find? (fun c => c.requestId == rid) with
    | none => rw [hf] at h; simp at h
    | some c =>
        rw [hf] at h
        simp only [Option.some.injEq] at h
        rw [← h]
        rfl
  · rw [OpenAICompatibleServer.handleRequestLifecycle, if_pos hfns]
    simp
  · rw [OpenAICompatibleServer.handleRequestLifecycle, if_pos hfns]
    show (OpenAICompatibleServer.registrySet reg
        (DynamicMcpBridge.registerRequest requestId functions)).find?
        (fun c => c.requestId == requestId) =
      some (DynamicMcpBridge.registerRequest requestId functions)
    rw [hset]
    exact find?_append_fresh reg requestId _ hfresh rfl

/-- Witness for C9: with one function registered, every try-body outcome
(here the throwing one) logs exactly one unregister and restores the empty
table, while a pre-try throw logs none and leaves the context registered. -/
theorem context_leaked_on_pre_try_throw_witness :
    ([searchFn].length > 0) ∧
    ((OpenAICompatibleServer.handleRequestLifecycle [] "cccccccccccc" [searchFn]
        (.body (.failed "boom"))).2.count (.unregister "cccccccccccc") = 1) ∧
    ((OpenAICompatibleServer.handleRequestLifecycle [] "cccccccccccc" [searchFn]
        .preTryThrow).2.count (.unregister "cccccccccccc") = 0) ∧
    ((OpenAICompatibleServer.handleRequestLifecycle [] "cccccccccccc" [searchFn]
        .preTryThrow).1.find? (fun c => c.requestId == "cccccccccccc") =
      some (DynamicMcpBridge.registerRequest "cccccccccccc" [searchFn])) :=
  ⟨by decide,
    ((context_leaked_on_pre_try_throw [] "cccccccccccc" [searchFn]
        (by decide) (by simp)).1 (.failed "boom")).1,
    (context_leaked_on_pre_try_throw [] "cccccccccccc" [searchFn]
        (by decide) (by simp)).2.2.1,
    (context_leaked_on_pre_try_throw [] "cccccccccccc" [searchFn]
        (by decide) (by simp)).2.2.2⟩

theorem any_dup_eq_contains (toolCalls : List ToolCallRecord) (name a : String) :
    (toolCalls.any fun tc => tc.name == name && tc.arguments == a) =
      (toolCalls.map recordKey).contains (name, a) := by
  induction toolCalls with
  | nil => rfl
  | cons tc rest ih =>
      have hhead : (tc.name == name && tc.arguments == a) = ((name, a) == recordKey tc) := by
        rw [Bool.eq_iff_iff]
        simp only [Bool.and_eq_true, beq_iff_eq, recordKey, Prod.ext_iff]
        constructor
        · rintro ⟨h1, h2⟩
          exact ⟨h1.symm, h2.symm⟩
        · rintro ⟨h1, h2⟩
          exact ⟨h1.symm, h2.symm⟩
      rw [List.any_cons, List.map_cons, List.contains_cons, hhead, ih]

theorem timerFire_toolCalls (s : ServerState) (t : Nat) :
    (DynamicMcpServer.timerFire s t).1.toolCalls = s.toolCalls := by
  cases hk : s.killTimeout with
  | none => simp [DynamicMcpServer.timerFire, hk]
  | some d => by_cases hd : d ≤ t <;> simp [DynamicMcpServer.timerFire, hk, hd]

theorem runTrace_records (tr : List ServerAction) (s : ServerState) :
    ((runTrace s tr).1).toolCalls.map recordKey =
      accumKeys (s.toolCalls.map recordKey) (callKeys tr) := by
  induction tr generalizing s with
  | nil => rfl
  | cons a rest ih =>
      cases a with
      | fire t =>
          show ((runTrace (stepServer s (ServerAction.fire t)).1 rest).1).toolCalls.map recordKey =
            accumKeys (s.toolCalls.map recordKey) (callKeys rest)
          rw [ih]
          have htc : (stepServer s (ServerAction.fire t)).1.toolCalls = s.toolCalls :=
            timerFire_toolCalls s t
          rw [htc]
      | call id name args t =>
          show ((runTrace (stepServer s (ServerAction.call id name args t)).1 rest).1).toolCalls.map
              recordKey =
            accumKeys (s.toolCalls.map recordKey)
              ((name, args.serialize) :: callKeys rest)
          rw [ih]
          simp only [accumKeys]
          rw [← any_dup_eq_contains]
          cases hb : s.toolCalls.any
              (fun tc => tc.name == name && tc.arguments == args.serialize) with
          | true =>
              rw [if_pos rfl]
              have hstate : (stepServer s (ServerAction.call id name args t)).1 = s := by
                simp only [stepServer, DynamicMcpServer.handleToolsCall]
                rw [hb]
                rfl
              rw [hstate]
          | false =>
              rw [if_neg (by simp)]
              have hstate : (stepServer s (ServerAction.call id name args t)).1.toolCalls =
                  s.toolCalls ++
                    [{ id := "call_" ++ toString t ++ "_" ++ toString s.nextToolCallId,
                       name := name, arguments := args.serialize }] := by
                simp only [stepServer, DynamicMcpServer.handleToolsCall]
                rw [hb]
                rfl
              rw [hstate, List.map_append]
              rfl

theorem runTrace_no_calls_silent (tr : List ServerAction) (s : ServerState)
    (hnone : s.killTimeout = none) (hnc : ∀ a ∈ tr, a.isCall = false) :
    (runTrace s tr).2 = [] ∧ (runTrace s tr).1.killTimeout = none := by
  induction tr generalizing s with
  | nil => exact ⟨rfl, hnone⟩
  | cons a rest ih =>
      cases a with
      | call id name args t =>
          have := hnc _ (List.mem_cons_self _ _)
          simp [ServerAction.isCall] at this
      | fire t =>
          have hstep : stepServer s (ServerAction.fire t) = (s, []) := by
            simp [stepServer, DynamicMcpServer.timerFire, hnone]
          have ihr := ih s hnone fun a ha => hnc a (List.mem_cons_of_mem _ ha)
          constructor
          · show (stepServer s (ServerAction.fire t)).2 ++
              (runTrace (stepServer s (ServerAction.fire t)).1 rest).2 = []
            rw [hstep]
            simpa using ihr.1
          · show (runTrace (stepServer s (ServerAction.fire t)).1 rest).1.killTimeout = none
            rw [hstep]
            exact ihr.2

theorem runTrace_append (t1 t2 : List ServerAction) (s : ServerState) :
    runTrace s (t1 ++ t2) =
      ((runTrace (runTrace s t1).1 t2).1,
        (runTrace s t1).2 ++ (runTrace (runTrace s t1).1 t2).2) := by
  induction t1 generalizing s with
  | nil => simp [runTrace]
  | cons a rest ih =>
      show ((runTrace (stepServer s a).1 (rest ++ t2)).1,
          (stepServer s a).2 ++ (runTrace (stepServer s a).1 (rest ++ t2)).2) = _
      rw [ih]
      show _ = ((runTrace (runTrace (stepServer s a).1 rest).1 t2).1,
        ((stepServer s a).2 ++ (runTrace (stepServer s a).1 rest).2) ++
          (runTrace (runTrace (stepServer s a).1 rest).1 t2).2)
      rw [List.append_assoc]

/-- C3: when the armed debounce timer fires at its deadline as the first
termination in the context's lifetime and the agent makes no further calls,
the whole trace carries exactly one termination signal, and it holds exactly
the non-duplicate records accumulated so far (one per distinct
`(name, serialized arguments)` key, in first-arrival order); moreover every
non-duplicate call cancels any pending deadline and schedules a fresh one
2000 ms out. -/
theorem termination_fires_once_with_all_records (fns : List ChatCompletionFunction)
    (tr1 tr2 : List ServerAction) (t d : Nat)
    (harmed : ((runTrace (DynamicMcpServer.new fns) tr1).1).killTimeout = some d)
    (hdue : d ≤ t)
    (hfirst : ∀ e ∈ (runTrace (DynamicMcpServer.new fns) tr1).2, e.isTerminate = false)
    (hnocall : ∀ a ∈ tr2, a.isCall = false) :
    ((runTrace (DynamicMcpServer.new fns) (tr1 ++ ServerAction.fire t :: tr2)).2.filter
        fun e => e.isTerminate) =
      [.terminate ((runTrace (DynamicMcpServer.new fns) tr1).1).toolCalls] ∧
    ((runTrace (DynamicMcpServer.new fns) tr1).1).toolCalls.map recordKey =
      accumKeys [] (callKeys tr1) ∧
    (∀ (s : ServerState) (id : Option RpcId) (name : String) (args : Json) (now : Nat),
      (s.toolCalls.any fun tc => tc.name == name && tc.arguments == args.serialize) = false →
      (DynamicMcpServer.handleToolsCall s id name args now).1.killTimeout =
        some (now + 2000)) := by
  refine ⟨?_, ?_, ?_⟩
  · have hstep : stepServer (runTrace (DynamicMcpServer.new fns) tr1).1 (ServerAction.fire t) =
        ({ (runTrace (DynamicMcpServer.new fns) tr1).1 with killTimeout := none },
          [.terminate ((runTrace (DynamicMcpServer.new fns) tr1).1).toolCalls]) := by
      simp [stepServer, DynamicMcpServer.timerFire, harmed, hdue]
    have hsilent := runTrace_no_calls_silent tr2
      { (runTrace (DynamicMcpServer.new fns) tr1).1 with killTimeout := none } rfl hnocall
    rw [runTrace_append]
    show (((runTrace (DynamicMcpServer.new fns) tr1).2 ++
        ((stepServer (runTrace (DynamicMcpServer.new fns) tr1).1 (ServerAction.fire t)).2 ++
          (runTrace (stepServer (runTrace (DynamicMcpServer.new fns) tr1).1
            (ServerAction.fire t)).1 tr2).2)).filter fun e => e.isTerminate) = _
    rw [hstep]
    have h1 : ((runTrace (DynamicMcpServer.new fns) tr1).2.filter fun e => e.isTerminate) = [] := by
      rw [List.filter_eq_nil_iff]
      intro e he
      simp [hfirst e he]
    rw [List.filter_append, h1, List.nil_append]
    show (([ServerEvent.terminate ((runTrace (DynamicMcpServer.new fns) tr1).1).toolCalls] ++
      (runTrace { (runTrace (DynamicMcpServer.new fns) tr1).1 with killTimeout := none }
        tr2).2).filter fun e => e.isTerminate) = _
    rw [hsilent.1, List.append_nil]
    rfl
  · have h := runTrace_records tr1 (DynamicMcpServer.new fns)
    simpa [DynamicMcpServer.new] using h
  · intro s id name args now hnew
    simp [DynamicMcpServer.handleToolsCall, hnew, DynamicMcpServer.scheduleTermination]

/-- Witness for C3: one recorded call, the timer firing at its 2000 ms
deadline, and no further stimuli yield exactly one termination carrying the
single record. -/
theorem termination_fires_once_with_all_records_witness :
    ((runTrace (DynamicMcpServer.new []) [ServerAction.call none "f" Json.null 0]).1.killTimeout =
      some 2000) ∧
    ((runTrace (DynamicMcpServer.new [])
        ([ServerAction.call none "f" Json.null 0] ++ ServerAction.fire 2000 :: [])).2.filter
        fun e => e.isTerminate) =
      [.terminate [{ id := "call_0_0", name := "f", arguments := "null" }]] := by
  refine ⟨rfl, ?_⟩
  have h := (termination_fires_once_with_all_records []
    [ServerAction.call none "f" Json.null 0] [] 2000 2000 rfl (by decide) (by decide)
    (by simp)).1
  rw [h]
  rfl
